import Mathlib

/-!
Verification of the StudyBuddy web application (quiz tab, text-to-audio tab,
voice Q&A tab) against its natural-language specification.

The TypeScript components are shallowly embedded:
* JS strings are modelled as `List Char`; `String.prototype.trim` is `jsTrim`
  over the ECMAScript whitespace set; `String.prototype.split(/Q\d*:/)` is
  `splitQ`; `split('\n')` is `splitOnNl`.
* `parseQuizResponse` and its inner loops are translated line by line into the
  pure functions `parseLines`, `collectAnswer`, `collectExpl`, `parseQuizPart`.
* The event handlers of the components are modelled as pure state-transition
  functions; calls into the external SDK are modelled as the data they pass
  (the prompt string, the `processTurn` argument record, the `synthesize`
  argument pair), and the values the SDK returns, streams or throws are inputs
  of the model.
-/

namespace StudyBuddy

/-- JS strings are modelled as lists of characters. -/
abbrev Str := List Char

/-- Convert a Lean string literal to the `Str` model. -/
def str (s : String) : Str := s.data

/-- The ECMAScript whitespace set used by `String.prototype.trim`:
`WhiteSpace` (TAB, VT, FF, SP, NBSP, ZWNBSP and the Unicode `Space_Separator`
category) together with `LineTerminator` (LF, CR, LS, PS). -/
def jsWhitespace (c : Char) : Bool :=
  c.val = 9 || c.val = 10 || c.val = 11 || c.val = 12 || c.val = 13 ||
  c.val = 32 || c.val = 0xa0 || c.val = 0x1680 ||
  (0x2000 ≤ c.val && c.val ≤ 0x200a) ||
  c.val = 0x2028 || c.val = 0x2029 || c.val = 0x202f || c.val = 0x205f ||
  c.val = 0x3000 || c.val = 0xfeff

/-- `s.trim()`: drop ECMAScript whitespace from both ends. -/
def jsTrim (l : Str) : Str :=
  ((l.dropWhile jsWhitespace).reverse.dropWhile jsWhitespace).reverse

/-- `s.startsWith(pre)`. -/
def startsWith (pre l : Str) : Bool := pre.isPrefixOf l

/-- Whether a character appears in the string. -/
def hasChar (c : Char) : Str → Bool
  | [] => false
  | d :: l => d == c || hasChar c l

/-- The `QuizQuestion` interface of the quiz tab.  The optional `explanation`
field is always assigned (possibly the empty string) by the parser, so it is
modelled as a plain string. -/
structure QuizQuestion where
  question : Str
  answer : Str
  explanation : Str
deriving DecidableEq, Repr

/-- One leftmost-match attempt of the regex `Q\d*:` at the head of the string:
a literal `Q`, then greedily digits, then a literal `:`.  Returns the rest of
the string after the match, or `none` when the head does not match. -/
def matchQMarker : Str → Option Str
  | c :: rest =>
    if c = 'Q' then
      match rest.dropWhile Char.isDigit with
      | ':' :: tail => some tail
      | _ => none
    else none
  | [] => none

/-- Fuel-indexed worker for `splitQ`; the fuel dominates the length of the
input so the recursion is structural and computes by kernel reduction. -/
def splitQGo : Nat → Str → Str → List Str
  | _, acc, [] => [acc.reverse]
  | 0, acc, l => [acc.reverse ++ l]
  | fuel + 1, acc, c :: rest =>
    match matchQMarker (c :: rest) with
    | some tail => acc.reverse :: splitQGo fuel [] tail
    | none => splitQGo fuel (c :: acc) rest

/-- `response.split(/Q\d*:/)`: scan left to right, cutting at every match of
the marker regex; the matches themselves are discarded.  `acc` holds the
current part in reverse. -/
def splitQ (acc l : Str) : List Str := splitQGo l.length acc l

/-- Whether the regex `Q\d*:` matches anywhere in the string. -/
def hasMarker : Str → Bool
  | [] => false
  | c :: rest => (matchQMarker (c :: rest)).isSome || hasMarker rest

/-- `part.split('\n')`. -/
def splitOnNl : Str → List Str
  | [] => [[]]
  | c :: rest =>
    if c = '\n' then [] :: splitOnNl rest
    else
      match splitOnNl rest with
      | [] => [[c]]
      | h :: t => (c :: h) :: t

/-- The inner `while` loop following an `A:` line: append the following lines
(separated by single spaces) until a line starting with `E:` or `Q:` or the
end of the part, skipping lines that start with `A:`. -/
def collectAnswer (acc : Str) : List Str → Str
  | [] => acc
  | l :: rest =>
    if startsWith (str "E:") l || startsWith (str "Q:") l then acc
    else if startsWith (str "A:") l then collectAnswer acc rest
    else collectAnswer (acc ++ ' ' :: jsTrim l) rest

/-- The inner `while` loop following an `E:` line: append the following lines
until a line starting with `Q:` or `A:` or the end of the part, skipping lines
that start with `E:`. -/
def collectExpl (acc : Str) : List Str → Str
  | [] => acc
  | l :: rest =>
    if startsWith (str "Q:") l || startsWith (str "A:") l then acc
    else if startsWith (str "E:") l then collectExpl acc rest
    else collectExpl (acc ++ ' ' :: jsTrim l) rest

/-- The `for` loop of `parseQuizResponse` over the (trimmed, non-empty) lines
of one part, threading the `question`/`answer`/`explanation` variables. -/
def parseLines : List Str → Str × Str × Str → Str × Str × Str
  | [], st => st
  | line :: rest, (q, a, e) =>
    if startsWith (str "A:") line then
      parseLines rest (q, collectAnswer (jsTrim (line.drop 2)) rest, e)
    else if startsWith (str "E:") line then
      parseLines rest (q, a, collectExpl (jsTrim (line.drop 2)) rest)
    else if q.isEmpty then
      parseLines rest (line, a, e)
    else
      parseLines rest (q, a, e)

/-- `part.split('\n').map(l => l.trim()).filter(l => l)`. -/
def linesOf (part : Str) : List Str :=
  ((splitOnNl part).map jsTrim).filter (fun l => !l.isEmpty)

/-- Processing of one part of the split response: run the line loop and push a
question iff both the question and the answer are non-empty (truthy). -/
def parseQuizPart (part : Str) : Option QuizQuestion :=
  let st := parseLines (linesOf part) ([], [], [])
  if !st.1.isEmpty && !st.2.1.isEmpty then some ⟨st.1, st.2.1, st.2.2⟩
  else none

/-- `parseQuizResponse` of the quiz tab: split on `Q\d*:`, keep the parts with
truthy trim, and parse each part. -/
def parseQuizResponse (response : Str) : List QuizQuestion :=
  ((splitQ [] response).filter (fun p => !(jsTrim p).isEmpty)).filterMap parseQuizPart

/-! ### The prescribed quiz block format

A completion "consisting of blocks in the prescribed quiz format" is modelled
by a list of `QuizBlock`s: each block is a `Q:` or `Q<digits>:` marker, a
single question line, an `A:` line with optional continuation lines, and an
`E:` line with optional continuation lines.  `QuizBlock.wf` pins down the
format: the stored texts are the trimmed line contents, and a line of the
format neither collides with the `A:`/`E:`/`Q\d*:` line markers nor spans
several physical lines. -/

/-- Both `dropWhile` passes of `jsTrim` leave the string unchanged (the string
carries no leading and no trailing ECMAScript whitespace). -/
def trimmed (l : Str) : Bool :=
  (l.dropWhile jsWhitespace == l) && (l.reverse.dropWhile jsWhitespace == l.reverse)

/-- A usable logical line of a quiz block: non-empty, already trimmed, free of
`Q\d*:` marker occurrences and of physical line breaks. -/
def wfText (l : Str) : Bool :=
  !l.isEmpty && trimmed l && !hasMarker l && !hasChar '\n' l

/-- A line that the parser must treat as plain text: additionally it must not
start with the `A:` or `E:` line markers. -/
def wfPlain (l : Str) : Bool :=
  wfText l && !startsWith (str "A:") l && !startsWith (str "E:") l

/-- One block of the prescribed quiz format. -/
structure QuizBlock where
  digits : Str
  q : Str
  a : Str
  aConts : List Str
  e : Str
  eConts : List Str
deriving DecidableEq, Repr

/-- Well-formedness of a block of the prescribed format. -/
def QuizBlock.wf (b : QuizBlock) : Bool :=
  b.digits.all Char.isDigit && wfPlain b.q && wfText b.a &&
  b.aConts.all wfPlain && wfText b.e && b.eConts.all wfPlain

/-- Render logical lines one per physical line, each terminated by `'\n'`,
followed by `rest`. -/
def joinLinesThen (ls : List Str) (rest : Str) : Str :=
  match ls with
  | [] => rest
  | l :: ls => l ++ '\n' :: joinLinesThen ls rest

/-- Continuation lines as the parser concatenates them: each preceded by a
single space. -/
def joinSp : List Str → Str
  | [] => []
  | l :: ls => ' ' :: l ++ joinSp ls

/-- The text of a block after its `Q...:` marker. -/
def QuizBlock.body (b : QuizBlock) : Str :=
  (' ' :: b.q) ++ '\n' ::
    ((str "A: " ++ b.a) ++ '\n' ::
      joinLinesThen b.aConts
        ((str "E: " ++ b.e) ++ '\n' :: joinLinesThen b.eConts []))

/-- The full rendered text of a block, marker included. -/
def QuizBlock.render (b : QuizBlock) : Str :=
  'Q' :: b.digits ++ ':' :: b.body

/-- A completion consisting of the given blocks, in order. -/
def renderBlocks : List QuizBlock → Str
  | [] => []
  | b :: bs => b.render ++ renderBlocks bs

/-- The `QuizQuestion` the specification promises for a block: the trimmed
question line, and the `A:`/`E:` texts with their continuation lines appended
separated by single spaces. -/
def QuizBlock.expected (b : QuizBlock) : QuizQuestion :=
  ⟨b.q, b.a ++ joinSp b.aConts, b.e ++ joinSp b.eConts⟩

/-! ### Thrown values and error display

A JS value caught by a `catch (err)` clause is either an `Error` carrying a
message or some other value (whose `String(err)` rendering is carried). -/

/-- A thrown JS value as the `catch` clauses of this app discriminate it. -/
inductive JSError where
  | error (message : Str)
  | other (asString : Str)
deriving DecidableEq, Repr

/-- `err instanceof Error ? err.message : String(err)` (App.tsx SDK init). -/
def appErrorDisplay : JSError → Str
  | .error m => m
  | .other s => s

/-- `err instanceof Error ? err.message : 'Failed to generate quiz'`. -/
def quizErrorDisplay : JSError → Str
  | .error m => m
  | .other _ => str "Failed to generate quiz"

/-- `err instanceof Error ? err.message : 'Failed to process voice input'`. -/
def voiceErrorDisplay : JSError → Str
  | .error m => m
  | .other _ => str "Failed to process voice input"

/-- `err instanceof Error ? err.message : 'Failed to start listening'`. -/
def startListenDisplay : JSError → Str
  | .error m => m
  | .other _ => str "Failed to start listening"

/-- `err instanceof Error ? err.message : 'Failed to generate audio'`. -/
def ttsErrorDisplay : JSError → Str
  | .error m => m
  | .other _ => str "Failed to generate audio"

/-! ### App.tsx: SDK initialization -/

/-- The two pieces of App state the init effect touches. -/
structure AppState where
  sdkReady : Bool
  sdkError : Option Str
deriving DecidableEq, Repr

/-- The `useEffect` of `App`: `initSDK().then(() => setSdkReady(true))
.catch((err) => setSdkError(...))`, with the promise outcome as input. -/
def appInit : Except JSError Unit → AppState
  | .ok _ => ⟨true, none⟩
  | .error e => ⟨false, some (appErrorDisplay e)⟩

/-! ### QuizTab.handleGenerate -/

/-- Decimal rendering of the interpolated `${numQuestions}`. -/
def natToStr (n : Nat) : Str := (toString n).data

/-- The `Q:`/`A:`/`E:` output-format instruction lines of the prompt. -/
def quizFormatBlock : Str :=
  str "Q: [question here]\nA: [answer here]\nE: [explanation here]"

/-- The template text between the interpolated head line and the format
lines (the head line of the template ends in `". "` before the blank line). -/
def quizPromptMid : Str :=
  str " \n\nFor each question, provide:\n1. The question\n2. A clear, concise answer\n3. A brief explanation (1-2 sentences)\n\nFormat each question like this:\n"

/-- The template text after the format lines. -/
def quizPromptEnd : Str :=
  str "\n\nKeep questions educational and test understanding of key concepts."

/-- The prompt template literal of `handleGenerate`, with `${numQuestions}`,
`${difficulty}` and `${topic}` interpolated. -/
def buildQuizPrompt (n : Nat) (difficulty topic : Str) : Str :=
  str "Generate exactly " ++ natToStr n ++ str " " ++ difficulty ++
    str " level quiz questions about \"" ++ topic ++ str "\"." ++
    quizPromptMid ++ quizFormatBlock ++ quizPromptEnd

/-- The component state `handleGenerate` leaves behind, together with the
prompt it handed to `TextGeneration.generateStream`. -/
structure QuizOutcome where
  promptSent : Str
  questions : List QuizQuestion
  errorMsg : Option Str
  isGenerating : Bool
deriving DecidableEq, Repr

/-- `handleGenerate` of the quiz tab after its blank-topic guard: the prompt
is built and passed to `TextGeneration.generateStream`; `result` is the
outcome of awaiting the token stream (the accumulated `fullResponse`, or the
thrown value).  The `finally` clause clears `isGenerating`; `questions` and
`showAnswers` were cleared before the call. -/
def quizGenerate (topic difficulty : Str) (n : Nat)
    (result : Except JSError Str) : QuizOutcome :=
  match result with
  | .error e =>
    ⟨buildQuizPrompt n difficulty topic, [], some (quizErrorDisplay e), false⟩
  | .ok response =>
    let parsed := parseQuizResponse response
    if parsed.isEmpty then
      ⟨buildQuizPrompt n difficulty topic, [],
        some (str "Failed to parse quiz questions. Please try again."), false⟩
    else
      ⟨buildQuizPrompt n difficulty topic, parsed, none, false⟩

/-! ### TextToAudioTab.handleGenerate -/

/-- The value `TTS.synthesize` resolves with; sample values are carried as
exact rationals. -/
structure TTSResult where
  audioData : List ℚ
  sampleRate : ℚ
deriving DecidableEq, Repr

/-- What the text-to-audio `handleGenerate` did: the `(text, speed)` argument
pair of the `TTS.synthesize` call (if reached), the displayed
`(duration, sampleRate)` stats (if set), and the error message (if set).
`generationTime` is wall-clock time and is not modelled. -/
structure TTSOutcome where
  synthCall : Option (Str × ℚ)
  stats : Option (ℚ × ℚ)
  errorMsg : Option Str
deriving DecidableEq, Repr

/-- `handleGenerate` of the text-to-audio tab, with the synthesis outcome as
input. -/
def ttsHandleGenerate (text : Str) (result : Except JSError TTSResult) :
    TTSOutcome :=
  if (jsTrim text).isEmpty then
    ⟨none, none, some (str "Please enter some text to convert to audio")⟩
  else
    match result with
    | .error e => ⟨some (text, 1), none, some (ttsErrorDisplay e)⟩
    | .ok r =>
      ⟨some (text, 1),
        some ((r.audioData.length : ℚ) / r.sampleRate, r.sampleRate), none⟩

/-! ### VoiceQATab

The tab is modelled as a state machine: `VState` is the component state (the
refs `audioCaptureRef`/`vadUnsubRef` are summarised by `vadSubscribed`, and
the arguments of the `VoicePipeline.processTurn` calls the component makes are
logged in `turnCalls`); `VEvent` is a user action, a VAD callback, a pipeline
callback, or the rejection of an awaited call; `voiceStep` is the handler code
run for one event. -/

/-- The `PipelineState` union type. -/
inductive PState where
  | idle
  | listening
  | transcribing
  | thinking
  | speaking
deriving DecidableEq, BEq, Repr

/-- A conversation role. -/
inductive Role where
  | user
  | assistant
deriving DecidableEq, BEq, Repr

/-- One entry of `conversationHistory`. -/
structure ChatMsg where
  role : Role
  text : Str
deriving DecidableEq, Repr

/-- A speech segment popped from the VAD. -/
structure VSegment where
  samples : List ℚ
deriving DecidableEq, Repr

/-- The argument record of one `VoicePipeline.processTurn` call. -/
structure TurnCall where
  samples : List ℚ
  maxTokens : Nat
  temperature : ℚ
  systemPrompt : Str
deriving DecidableEq, Repr

/-- The system prompt the voice tab passes to `processTurn`. -/
def voiceQASystemPrompt : Str :=
  str "You are a helpful study assistant. Answer questions clearly and concisely. Focus on being educational and accurate. Keep responses brief and to the point."

/-- The options and samples of the `processTurn` call made for a segment. -/
def mkTurnCall (seg : VSegment) : TurnCall :=
  ⟨seg.samples, 150, 7 / 10, voiceQASystemPrompt⟩

/-- The voice tab component state. -/
structure VState where
  pipelineState : PState
  transcript : Str
  response : Str
  error : Option Str
  history : List ChatMsg
  vadSubscribed : Bool
  turnCalls : List TurnCall
deriving DecidableEq, Repr

/-- The initial component state. -/
def vInit : VState := ⟨.idle, [], [], none, [], false, []⟩

/-- Events the voice tab reacts to.  `startOk`/`startFail` are the two
completions of `startListening` (on failure, `subscribed` records whether the
VAD subscription had already been installed when the setup threw);
`vadEnded` is a `SpeechActivity.Ended` callback together with the segment
`VAD.popSpeechSegment()` returns; the `on*` events are the `processTurn`
callbacks; `turnError` is the rejection of the awaited `processTurn`. -/
inductive VEvent where
  | startOk
  | startFail (e : JSError) (subscribed : Bool)
  | stopListening
  | vadEnded (seg : Option VSegment)
  | vadOther
  | onTranscription (text : Str)
  | onResponseToken (accumulated : Str)
  | onResponseComplete (transcription : Option Str) (text : Str)
  | onSynthesisComplete
  | turnError (e : JSError)
  | clearHistory
deriving DecidableEq, Repr

/-- `result.transcription || transcript`: JS `||` falls through on the empty
string and on a missing value. -/
def jsOrElse (tr : Option Str) (fallback : Str) : Str :=
  match tr with
  | some t => if t.isEmpty then fallback else t
  | none => fallback

/-- One event-handler step of the voice tab. -/
def voiceStep (s : VState) : VEvent → VState
  | .startOk =>
    if s.pipelineState = .idle then
      { s with error := none, pipelineState := .listening, transcript := [],
               response := [], vadSubscribed := true }
    else s
  | .startFail e subscribed =>
    if s.pipelineState = .idle then
      { s with error := some (startListenDisplay e), pipelineState := .idle,
               transcript := [], response := [], vadSubscribed := subscribed }
    else s
  | .stopListening =>
    { s with pipelineState := .idle, vadSubscribed := false }
  | .vadEnded seg =>
    match seg with
    | some seg =>
      if s.vadSubscribed = true ∧ 1600 < seg.samples.length then
        { s with pipelineState := .transcribing,
                 turnCalls := s.turnCalls ++ [mkTurnCall seg] }
      else s
    | none => s
  | .vadOther => s
  | .onTranscription t =>
    { s with transcript := t, pipelineState := .thinking }
  | .onResponseToken acc =>
    { s with response := acc }
  | .onResponseComplete tr text =>
    { s with pipelineState := .speaking,
             history := s.history ++
               [⟨.user, jsOrElse tr s.transcript⟩, ⟨.assistant, text⟩] }
  | .onSynthesisComplete =>
    { s with pipelineState := .idle }
  | .turnError e =>
    { s with error := some (voiceErrorDisplay e), pipelineState := .idle }
  | .clearHistory =>
    { s with history := [], transcript := [], response := [] }

/-- Run a sequence of events from a state. -/
def voiceRun (s : VState) (es : List VEvent) : VState := es.foldl voiceStep s

/-- The transitions C3 allows: staying put, one step forward along the chain
idle → listening → transcribing → thinking → speaking → idle, or a reset to
idle. -/
def chainStep : PState → PState → Bool
  | .idle, .listening => true
  | .listening, .transcribing => true
  | .transcribing, .thinking => true
  | .thinking, .speaking => true
  | .speaking, .idle => true
  | _, _ => false

/-- `chainStep` closed under staying put and resetting to idle. -/
def chainAllowed (a b : PState) : Bool :=
  decide (a = b) || decide (b = PState.idle) || chainStep a b

/-- Events that reset the pipeline to idle outside the chain: stop, a failed
`startListening`, a failed turn. -/
def isResetEvent : VEvent → Bool
  | .stopListening => true
  | .startFail _ _ => true
  | .turnError _ => true
  | _ => false

/-- Turn-taking order of events: a VAD end-of-speech only while listening, no
stop while a turn is in flight, and each `processTurn` callback only from the
pipeline state the previous step established.  This is the regime the UI
instructs the user to respect and under which C3's chain holds. -/
def orderly (s : VState) : VEvent → Bool
  | .startOk => decide (s.pipelineState = .idle)
  | .startFail _ _ => decide (s.pipelineState = .idle)
  | .stopListening =>
    decide (s.pipelineState = .idle) || decide (s.pipelineState = .listening)
  | .vadEnded _ => decide (s.pipelineState = .listening)
  | .vadOther => true
  | .onTranscription _ => decide (s.pipelineState = .transcribing)
  | .onResponseToken _ => decide (s.pipelineState = .thinking)
  | .onResponseComplete _ _ => decide (s.pipelineState = .thinking)
  | .onSynthesisComplete => decide (s.pipelineState = .speaking)
  | .turnError _ =>
    decide (s.pipelineState = .transcribing) || decide (s.pipelineState = .thinking) ||
      decide (s.pipelineState = .speaking)
  | .clearHistory => true

/-- `conversationHistory` is a sequence of user/assistant pairs (in
particular it has even length and strictly alternating roles). -/
def isPairs : List ChatMsg → Bool
  | [] => true
  | [_] => false
  | u :: a :: rest =>
    decide (u.role = .user) && decide (a.role = .assistant) && isPairs rest

/-- A speech segment of `n` samples (witness/counterexample fixture). -/
def segN (n : Nat) : VSegment := ⟨List.replicate n 0⟩

/-- Two well-formed blocks used as the C1 witness. -/
def exBlocks : List QuizBlock :=
  [⟨[], str "What is photosynthesis?", str "A process in plants",
      [str "that converts light"], str "Plants make sugar", []⟩,
   ⟨['2'], str "Who wrote Hamlet?", str "Shakespeare", [],
      str "An English playwright", [str "from Stratford"]⟩]

/-! ## Theorems -/

theorem matchQMarker_length {l tail : Str} (h : matchQMarker l = some tail) :
    tail.length < l.length := by
  match l with
  | [] => simp [matchQMarker] at h
  | c :: rest =>
    simp only [matchQMarker] at h
    split at h
    · split at h
      · rename_i heq
        cases h
        have hlen : (rest.dropWhile Char.isDigit).length ≤ rest.length := by
          have : rest.dropWhile Char.isDigit <:+ rest := List.dropWhile_suffix _
          exact this.length_le
        rw [heq] at hlen
        simp only [List.length_cons] at hlen ⊢
        omega
      · cases h
    · cases h

theorem splitQGo_fuel : ∀ f1 f2 acc (l : Str), l.length ≤ f1 → l.length ≤ f2 →
    splitQGo f1 acc l = splitQGo f2 acc l := by
  intro f1
  induction f1 with
  | zero =>
    intro f2 acc l h1 _
    have : l = [] := List.eq_nil_of_length_eq_zero (Nat.le_zero.mp h1)
    subst this
    cases f2 <;> rfl
  | succ f ih =>
    intro f2 acc l h1 h2
    match l with
    | [] => cases f2 <;> rfl
    | c :: rest =>
      match f2 with
      | 0 => simp at h2
      | f2' + 1 =>
        cases hm : matchQMarker (c :: rest) with
        | some tail =>
          have hlt := matchQMarker_length hm
          simp only [List.length_cons] at h1 h2 hlt
          simp only [splitQGo, hm]
          rw [ih f2' [] tail (by omega) (by omega)]
        | none =>
          simp only [List.length_cons] at h1 h2
          simp only [splitQGo, hm]
          rw [ih f2' (c :: acc) rest (by omega) (by omega)]

theorem splitQ_nil (acc : Str) : splitQ acc [] = [acc.reverse] := rfl

theorem splitQ_cons_some {c : Char} {rest tail : Str}
    (h : matchQMarker (c :: rest) = some tail) (acc : Str) :
    splitQ acc (c :: rest) = acc.reverse :: splitQ [] tail := by
  have hlt := matchQMarker_length h
  simp only [List.length_cons] at hlt
  simp only [splitQ, List.length_cons, splitQGo, h]
  rw [splitQGo_fuel rest.length tail.length [] tail (by omega) (le_refl _)]

theorem splitQ_cons_none {c : Char} {rest : Str}
    (h : matchQMarker (c :: rest) = none) (acc : Str) :
    splitQ acc (c :: rest) = splitQ (c :: acc) rest := by
  simp only [splitQ, List.length_cons, splitQGo, h]

/-! ### Whitespace and trim lemmas -/

theorem jsTrim_nil : jsTrim [] = [] := rfl

theorem jsTrim_cons_ws {c : Char} (h : jsWhitespace c = true) (l : Str) :
    jsTrim (c :: l) = jsTrim l := by
  simp [jsTrim, List.dropWhile_cons, h]

theorem trimmed_iff {l : Str} :
    trimmed l = true ↔
      l.dropWhile jsWhitespace = l ∧ l.reverse.dropWhile jsWhitespace = l.reverse := by
  simp [trimmed]

theorem jsTrim_of_trimmed {l : Str} (h : trimmed l = true) : jsTrim l = l := by
  obtain ⟨h1, h2⟩ := trimmed_iff.mp h
  simp [jsTrim, h1, h2]

theorem dropWhile_self_head {p : Char → Bool} {c : Char} {t : Str}
    (h : List.dropWhile p (c :: t) = c :: t) : p c = false := by
  by_contra hc
  have hc' : p c = true := by revert hc; cases p c <;> simp
  rw [List.dropWhile_cons_of_pos hc'] at h
  have := congrArg List.length h
  have hle : (List.dropWhile p t).length ≤ t.length := (List.dropWhile_suffix _).length_le
  simp only [List.length_cons] at this
  omega

theorem dropWhile_self_append {p : Char → Bool} {x : Str} (y : Str)
    (hx : List.dropWhile p x = x) (hne : x ≠ []) :
    List.dropWhile p (x ++ y) = x ++ y := by
  match x with
  | [] => exact absurd rfl hne
  | c :: t =>
    have hc := dropWhile_self_head hx
    simp [List.dropWhile_cons, hc]

theorem dropWhile_eq_nil_all {p : Char → Bool} :
    ∀ {l : Str}, List.dropWhile p l = [] → l.all p = true := by
  intro l
  induction l with
  | nil => intro _; rfl
  | cons c t ih =>
    intro h
    by_cases hc : p c = true
    · rw [List.dropWhile_cons_of_pos hc] at h
      simp [hc, ih h]
    · have hc' : ¬ (p c = true) := hc
      rw [List.dropWhile_cons_of_neg hc'] at h
      cases h

theorem jsTrim_eq_nil_all {l : Str} (h : jsTrim l = []) :
    l.all jsWhitespace = true := by
  have h1 : List.dropWhile jsWhitespace (List.dropWhile jsWhitespace l).reverse = [] := by
    have := congrArg List.reverse h
    simpa [jsTrim] using this
  have h2 := dropWhile_eq_nil_all h1
  have h3 : (List.dropWhile jsWhitespace l).all jsWhitespace = true := by
    rw [List.all_eq_true] at h2 ⊢
    intro x hx
    exact h2 x (List.mem_reverse.mpr hx)
  have h4 : (List.takeWhile jsWhitespace l).all jsWhitespace = true := by
    rw [List.all_eq_true]
    intro x hx
    exact List.mem_takeWhile_imp hx
  have h5 := List.takeWhile_append_dropWhile (p := jsWhitespace) (l := l)
  rw [List.all_eq_true]
  intro x hx
  rw [← h5] at hx
  rcases List.mem_append.mp hx with hx' | hx'
  · exact List.all_eq_true.mp h4 x hx'
  · exact List.all_eq_true.mp h3 x hx'

theorem jsTrim_append_fixed (pre : Str) (a : Str)
    (hpre : List.dropWhile jsWhitespace pre = pre) (hprene : pre ≠ [])
    (ha : trimmed a = true) (hane : a ≠ []) :
    jsTrim (pre ++ a) = pre ++ a := by
  obtain ⟨_, ha2⟩ := trimmed_iff.mp ha
  have hrev : a.reverse ≠ [] := by simpa using hane
  have h1 : List.dropWhile jsWhitespace (pre ++ a) = pre ++ a :=
    dropWhile_self_append a hpre hprene
  have h2 : List.dropWhile jsWhitespace ((pre ++ a).reverse) = (pre ++ a).reverse := by
    rw [List.reverse_append]
    exact dropWhile_self_append pre.reverse ha2 hrev
  unfold jsTrim
  rw [h1, h2, List.reverse_reverse]

/-! ### Marker and split composition lemmas -/

theorem matchQMarker_cons_ne {c : Char} (h : c ≠ 'Q') (l : Str) :
    matchQMarker (c :: l) = none := by
  simp [matchQMarker, h]

theorem matchQMarker_marker {ds : Str} (hds : ds.all Char.isDigit = true)
    (tail : Str) : matchQMarker ('Q' :: (ds ++ ':' :: tail)) = some tail := by
  have h1 : List.dropWhile Char.isDigit (ds ++ ':' :: tail) = ':' :: tail := by
    rw [List.dropWhile_append_of_pos (by simpa [List.all_eq_true] using hds)]
    rw [List.dropWhile_cons_of_neg (by decide)]
  simp [matchQMarker, h1]

theorem matchQMarker_cons_Q (rest : Str) :
    matchQMarker ('Q' :: rest) =
      (match rest.dropWhile Char.isDigit with
        | ':' :: tail => some tail
        | _ => none) := by
  simp [matchQMarker]

theorem matchQMarker_append_none {x : Str} (y : Str)
    (hx : matchQMarker x = none) (hne : x ≠ [])
    (hy : ∀ d, y.head? = some d → d.isDigit = false ∧ d ≠ ':') :
    matchQMarker (x ++ y) = none := by
  match x with
  | [] => exact absurd rfl hne
  | c :: t =>
    by_cases hc : c = 'Q'
    · subst hc
      rw [List.cons_append, matchQMarker_cons_Q]
      rw [matchQMarker_cons_Q] at hx
      rcases hdw : List.dropWhile Char.isDigit t with _ | ⟨e, r⟩
      · have hall : t.all Char.isDigit = true := dropWhile_eq_nil_all hdw
        rw [List.dropWhile_append_of_pos (by simpa [List.all_eq_true] using hall)]
        match y with
        | [] => rfl
        | d :: y' =>
          obtain ⟨hd1, hd2⟩ := hy d rfl
          rw [List.dropWhile_cons_of_neg (by simp [hd1])]
          split
          · rename_i heq
            cases heq
            exact absurd rfl hd2
          · rfl
      · rw [hdw] at hx
        have he : e ≠ ':' := by
          intro h
          subst h
          simp at hx
        have hthis : List.dropWhile Char.isDigit (t ++ y) = e :: (r ++ y) := by
          rw [List.dropWhile_append]
          simp [hdw]
        rw [hthis]
        split
        · rename_i heq
          rw [List.cons.injEq] at heq
          exact absurd heq.1 he
        · rfl
    · exact matchQMarker_cons_ne hc _

theorem hasMarker_cons_ne {c : Char} (h : c ≠ 'Q') (l : Str) :
    hasMarker (c :: l) = hasMarker l := by
  simp [hasMarker, matchQMarker_cons_ne h]

theorem hasMarker_cons_false {c : Char} {l : Str} (h : hasMarker (c :: l) = false) :
    matchQMarker (c :: l) = none ∧ hasMarker l = false := by
  have h' : ((matchQMarker (c :: l)).isSome || hasMarker l) = false := h
  rcases Bool.or_eq_false_iff.mp h' with ⟨h1, h2⟩
  refine ⟨?_, h2⟩
  cases hm : matchQMarker (c :: l)
  · rfl
  · rw [hm] at h1
    simp at h1

theorem hasMarker_append {x : Str} (y : Str) (hx : hasMarker x = false)
    (hy : hasMarker y = false)
    (hyh : ∀ d, y.head? = some d → d.isDigit = false ∧ d ≠ ':') :
    hasMarker (x ++ y) = false := by
  induction x with
  | nil => simpa using hy
  | cons c t ih =>
    obtain ⟨h1, h2⟩ := hasMarker_cons_false hx
    have hm : matchQMarker (c :: (t ++ y)) = none := by
      have := matchQMarker_append_none y h1 (List.cons_ne_nil c t) hyh
      simpa using this
    rw [List.cons_append]
    show ((matchQMarker (c :: (t ++ y))).isSome || hasMarker (t ++ y)) = false
    rw [hm, ih h2]
    rfl

theorem splitQ_append {x : Str} (z : Str) (hx : hasMarker x = false)
    (hz : ∀ d, z.head? = some d → d.isDigit = false ∧ d ≠ ':') :
    ∀ acc, splitQ acc (x ++ z) = splitQ (x.reverse ++ acc) z := by
  induction x with
  | nil => intro acc; simp
  | cons c t ih =>
    intro acc
    obtain ⟨h1, h2⟩ := hasMarker_cons_false hx
    have hm : matchQMarker (c :: (t ++ z)) = none := by
      have := matchQMarker_append_none z h1 (by simp) hz
      simpa using this
    rw [List.cons_append, splitQ_cons_none hm, ih h2]
    simp

theorem splitQ_no_marker {x : Str} (hx : hasMarker x = false) (acc : Str) :
    splitQ acc x = [acc.reverse ++ x] := by
  have := splitQ_append (x := x) [] hx (by simp) acc
  simp only [List.append_nil] at this
  rw [this, splitQ_nil]
  simp

theorem startsWithQColon_of_hasMarker {l : Str} (h : hasMarker l = false) :
    startsWith (str "Q:") l = false := by
  match l with
  | [] => rfl
  | [c] => simp [startsWith, str, List.isPrefixOf]
  | c :: d :: t =>
    by_cases hc : c = 'Q'
    · subst hc
      by_cases hd : d = ':'
      · subst hd
        exfalso
        have hm : matchQMarker ('Q' :: ':' :: t) = some t := by
          simp [matchQMarker, List.dropWhile_cons_of_neg (by decide : ¬ Char.isDigit ':' = true)]
        rw [hasMarker, hm] at h
        simp at h
      · simp only [startsWith, str, List.isPrefixOf]
        have : (':' == d) = false := by
          cases hbe : ':' == d
          · rfl
          · exact absurd (eq_of_beq hbe).symm hd
        simp [this]
    · simp only [startsWith, str, List.isPrefixOf]
      have : ('Q' == c) = false := by
        cases hbe : 'Q' == c
        · rfl
        · exact absurd (eq_of_beq hbe).symm hc
      simp [this]

/-! ### Line splitting and well-formedness extraction -/

theorem ne_nil_isEmpty {α : Type} {l : List α} (h : l ≠ []) : l.isEmpty = false := by
  cases l with
  | nil => exact absurd rfl h
  | cons c t => rfl

theorem splitOnNl_nil : splitOnNl [] = [[]] := rfl

theorem splitOnNl_append_nl {x : Str} (hx : hasChar '\n' x = false) (y : Str) :
    splitOnNl (x ++ '\n' :: y) = x :: splitOnNl y := by
  induction x with
  | nil => simp [splitOnNl]
  | cons c t ih =>
    have hx' : ((c == '\n') || hasChar '\n' t) = false := hx
    rcases Bool.or_eq_false_iff.mp hx' with ⟨hc1, hc2⟩
    have hcne : c ≠ '\n' := by
      intro hh
      subst hh
      simp at hc1
    rw [List.cons_append]
    show splitOnNl (c :: (t ++ '\n' :: y)) = (c :: t) :: splitOnNl y
    simp only [splitOnNl, if_neg hcne]
    rw [ih hc2]

theorem splitOnNl_joinLinesThen (ls : List Str) (rest : Str)
    (hls : ∀ l ∈ ls, hasChar '\n' l = false) :
    splitOnNl (joinLinesThen ls rest) = ls ++ splitOnNl rest := by
  induction ls with
  | nil => rfl
  | cons l ls ih =>
    simp only [joinLinesThen]
    rw [splitOnNl_append_nl (hls l (by simp)) _,
      ih (fun l' hl' => hls l' (by simp [hl']))]
    rfl

theorem hasMarker_joinLinesThen (ls : List Str) (rest : Str)
    (hls : ∀ l ∈ ls, hasMarker l = false) (hrest : hasMarker rest = false)
    (hresth : ∀ d, rest.head? = some d → d.isDigit = false ∧ d ≠ ':') :
    hasMarker (joinLinesThen ls rest) = false := by
  induction ls with
  | nil => exact hrest
  | cons l ls ih =>
    simp only [joinLinesThen]
    apply hasMarker_append
    · exact hls l (by simp)
    · rw [hasMarker_cons_ne (by decide)]
      exact ih (fun l' hl' => hls l' (by simp [hl']))
    · intro d hd
      rw [List.head?_cons, Option.some.injEq] at hd
      subst hd
      constructor <;> decide

theorem wfText_spec {l : Str} (h : wfText l = true) :
    l ≠ [] ∧ trimmed l = true ∧ hasMarker l = false ∧ hasChar '\n' l = false := by
  simp only [wfText, Bool.and_eq_true, Bool.not_eq_true'] at h
  obtain ⟨⟨⟨h1, h2⟩, h3⟩, h4⟩ := h
  refine ⟨?_, h2, h3, h4⟩
  intro hh
  subst hh
  simp at h1

theorem wfPlain_spec {l : Str} (h : wfPlain l = true) :
    wfText l = true ∧ startsWith (str "A:") l = false ∧
      startsWith (str "E:") l = false := by
  simp only [wfPlain, Bool.and_eq_true, Bool.not_eq_true'] at h
  obtain ⟨⟨h1, h2⟩, h3⟩ := h
  exact ⟨h1, h2, h3⟩

theorem QuizBlock.wf_spec {b : QuizBlock} (h : b.wf = true) :
    b.digits.all Char.isDigit = true ∧ wfPlain b.q = true ∧ wfText b.a = true ∧
      (∀ c ∈ b.aConts, wfPlain c = true) ∧ wfText b.e = true ∧
      (∀ c ∈ b.eConts, wfPlain c = true) := by
  simp only [QuizBlock.wf, Bool.and_eq_true, List.all_eq_true] at h
  obtain ⟨⟨⟨⟨⟨h1, h2⟩, h3⟩, h4⟩, h5⟩, h6⟩ := h
  exact ⟨List.all_eq_true.mpr h1, h2, h3, h4, h5, h6⟩

/-! ### Literal decompositions -/

theorem strALine (x : Str) : str "A: " ++ x = 'A' :: ':' :: ' ' :: x := rfl

theorem strELine (x : Str) : str "E: " ++ x = 'E' :: ':' :: ' ' :: x := rfl

theorem startsWithA_aLine (a : Str) :
    startsWith (str "A:") (str "A: " ++ a) = true := rfl

theorem startsWithE_aLine (a : Str) :
    startsWith (str "E:") (str "A: " ++ a) = false := rfl

theorem startsWithA_eLine (e : Str) :
    startsWith (str "A:") (str "E: " ++ e) = false := rfl

theorem startsWithE_eLine (e : Str) :
    startsWith (str "E:") (str "E: " ++ e) = true := rfl

/-! ### The body of a well-formed block -/

theorem hasMarker_aLine {a : Str} (ha : hasMarker a = false) :
    hasMarker (str "A: " ++ a) = false := by
  rw [strALine, hasMarker_cons_ne (by decide), hasMarker_cons_ne (by decide),
    hasMarker_cons_ne (by decide)]
  exact ha

theorem hasMarker_eLine {e : Str} (he : hasMarker e = false) :
    hasMarker (str "E: " ++ e) = false := by
  rw [strELine, hasMarker_cons_ne (by decide), hasMarker_cons_ne (by decide),
    hasMarker_cons_ne (by decide)]
  exact he

theorem hasMarker_body {b : QuizBlock} (h : b.wf = true) :
    hasMarker b.body = false := by
  obtain ⟨_, hq, ha, hac, he, hec⟩ := QuizBlock.wf_spec h
  obtain ⟨hqt, _, _⟩ := wfPlain_spec hq
  obtain ⟨_, _, hqm, _⟩ := wfText_spec hqt
  obtain ⟨_, _, ham, _⟩ := wfText_spec ha
  obtain ⟨_, _, hem, _⟩ := wfText_spec he
  have htail : hasMarker ((str "E: " ++ b.e) ++ '\n' :: joinLinesThen b.eConts []) = false := by
    apply hasMarker_append
    · exact hasMarker_eLine hem
    · rw [hasMarker_cons_ne (by decide)]
      exact hasMarker_joinLinesThen _ _
        (fun c hc => (wfText_spec (wfPlain_spec (hec c hc)).1).2.2.1) rfl (by simp)
    · intro d hd
      rw [List.head?_cons, Option.some.injEq] at hd
      subst hd
      constructor <;> decide
  have hmid : hasMarker (joinLinesThen b.aConts
      ((str "E: " ++ b.e) ++ '\n' :: joinLinesThen b.eConts [])) = false := by
    apply hasMarker_joinLinesThen _ _
      (fun c hc => (wfText_spec (wfPlain_spec (hac c hc)).1).2.2.1) htail
    intro d hd
    rw [strELine] at hd
    simp only [List.cons_append, List.head?_cons, Option.some.injEq] at hd
    subst hd
    constructor <;> decide
  show hasMarker ((' ' :: b.q) ++ '\n' :: ((str "A: " ++ b.a) ++ '\n' :: joinLinesThen b.aConts
      ((str "E: " ++ b.e) ++ '\n' :: joinLinesThen b.eConts []))) = false
  apply hasMarker_append
  · rw [hasMarker_cons_ne (by decide)]
    exact hqm
  · rw [hasMarker_cons_ne (by decide)]
    apply hasMarker_append
    · exact hasMarker_aLine ham
    · rw [hasMarker_cons_ne (by decide)]
      exact hmid
    · intro d hd
      rw [List.head?_cons, Option.some.injEq] at hd
      subst hd
      constructor <;> decide
  · intro d hd
    rw [List.head?_cons, Option.some.injEq] at hd
    subst hd
    constructor <;> decide

theorem renderBlocks_headCond (bs : List QuizBlock) :
    ∀ d, (renderBlocks bs).head? = some d → d.isDigit = false ∧ d ≠ ':' := by
  cases bs with
  | nil => intro d hd; simp [renderBlocks] at hd
  | cons b bs =>
    intro d hd
    have hshape : renderBlocks (b :: bs) =
        'Q' :: (b.digits ++ ':' :: b.body ++ renderBlocks bs) := by
      simp [renderBlocks, QuizBlock.render]
    rw [hshape, List.head?_cons, Option.some.injEq] at hd
    subst hd
    constructor <;> decide

theorem splitQ_renderBlocks : ∀ (bs : List QuizBlock), (∀ b ∈ bs, b.wf = true) →
    ∀ acc, splitQ acc (renderBlocks bs) = acc.reverse :: bs.map QuizBlock.body := by
  intro bs
  induction bs with
  | nil =>
    intro _ acc
    simp [renderBlocks, splitQ_nil]
  | cons b bs ih =>
    intro h acc
    have hwb := h b (by simp)
    have hbody := hasMarker_body hwb
    have hdig := (QuizBlock.wf_spec hwb).1
    have hshape : renderBlocks (b :: bs) =
        'Q' :: (b.digits ++ ':' :: (b.body ++ renderBlocks bs)) := by
      simp [renderBlocks, QuizBlock.render]
    rw [hshape, splitQ_cons_some (matchQMarker_marker hdig _) acc,
      splitQ_append (renderBlocks bs) hbody (renderBlocks_headCond bs) [],
      ih (fun b' hb' => h b' (by simp [hb'])) (b.body.reverse ++ [])]
    simp

theorem jsTrim_body_isEmpty {b : QuizBlock} (h : b.wf = true) :
    (jsTrim b.body).isEmpty = false := by
  apply ne_nil_isEmpty
  intro hnil
  have hall := jsTrim_eq_nil_all hnil
  have hmem : 'A' ∈ b.body := by
    show 'A' ∈ (' ' :: b.q) ++ '\n' :: ((str "A: " ++ b.a) ++ '\n' :: joinLinesThen b.aConts
      ((str "E: " ++ b.e) ++ '\n' :: joinLinesThen b.eConts []))
    rw [strALine]
    simp
  have := List.all_eq_true.mp hall 'A' hmem
  simp [jsWhitespace] at this

/-! ### Running the line loop on a well-formed block -/

theorem map_jsTrim_self {ls : List Str} (h : ∀ c ∈ ls, trimmed c = true) :
    ls.map jsTrim = ls := by
  have h2 : ls.map jsTrim = ls.map id :=
    List.map_congr_left (fun c hc => jsTrim_of_trimmed (h c hc))
  simpa using h2

theorem filter_nonEmpty_self {ls : List Str} (h : ∀ l ∈ ls, l.isEmpty = false) :
    ls.filter (fun l => !l.isEmpty) = ls := by
  rw [List.filter_eq_self]
  intro a ha
  simp [h a ha]

theorem linesOf_body (b : QuizBlock) (h : b.wf = true) :
    linesOf b.body =
      b.q :: (str "A: " ++ b.a) :: (b.aConts ++ (str "E: " ++ b.e) :: b.eConts) := by
  obtain ⟨_, hq, ha, hac, he, hec⟩ := QuizBlock.wf_spec h
  obtain ⟨hqt, _, _⟩ := wfPlain_spec hq
  obtain ⟨hqne, hqtr, _, hqnl⟩ := wfText_spec hqt
  obtain ⟨hane, hatr, _, hanl⟩ := wfText_spec ha
  obtain ⟨hene, hetr, _, henl⟩ := wfText_spec he
  have hsplit : splitOnNl b.body =
      (' ' :: b.q) :: (str "A: " ++ b.a) ::
        (b.aConts ++ (str "E: " ++ b.e) :: (b.eConts ++ [[]])) := by
    show splitOnNl ((' ' :: b.q) ++ '\n' :: ((str "A: " ++ b.a) ++ '\n' ::
        joinLinesThen b.aConts
          ((str "E: " ++ b.e) ++ '\n' :: joinLinesThen b.eConts []))) = _
    rw [splitOnNl_append_nl (by simpa [hasChar] using hqnl)]
    rw [splitOnNl_append_nl (by rw [strALine]; simpa [hasChar] using hanl)]
    rw [splitOnNl_joinLinesThen _ _
      (fun c hc => (wfText_spec (wfPlain_spec (hac c hc)).1).2.2.2)]
    rw [splitOnNl_append_nl (by rw [strELine]; simpa [hasChar] using henl)]
    rw [splitOnNl_joinLinesThen _ _
      (fun c hc => (wfText_spec (wfPlain_spec (hec c hc)).1).2.2.2)]
    rfl
  have htrA : jsTrim (str "A: " ++ b.a) = str "A: " ++ b.a :=
    jsTrim_append_fixed _ _ (by decide) (by decide) hatr hane
  have htrE : jsTrim (str "E: " ++ b.e) = str "E: " ++ b.e :=
    jsTrim_append_fixed _ _ (by decide) (by decide) hetr hene
  have htrQ : jsTrim (' ' :: b.q) = b.q := by
    rw [jsTrim_cons_ws (by decide)]
    exact jsTrim_of_trimmed hqtr
  unfold linesOf
  rw [hsplit]
  simp only [List.map_cons, List.map_append, htrQ, htrA, htrE,
    map_jsTrim_self (fun c hc => (wfText_spec (wfPlain_spec (hac c hc)).1).2.1),
    map_jsTrim_self (fun c hc => (wfText_spec (wfPlain_spec (hec c hc)).1).2.1),
    jsTrim_nil]
  rw [List.filter_cons_of_pos (by simp [ne_nil_isEmpty hqne]),
    List.filter_cons_of_pos (by rw [strALine]; rfl)]
  rw [List.filter_append,
    filter_nonEmpty_self
      (fun l hl => ne_nil_isEmpty (wfText_spec (wfPlain_spec (hac l hl)).1).1)]
  rw [List.filter_cons_of_pos (by rw [strELine]; rfl)]
  rw [List.filter_append,
    filter_nonEmpty_self
      (fun l hl => ne_nil_isEmpty (wfText_spec (wfPlain_spec (hec l hl)).1).1)]
  simp

theorem collectAnswer_run : ∀ (conts : List Str) (l0 : Str) (rest : List Str)
    (acc : Str), (∀ c ∈ conts, wfPlain c = true) →
    (startsWith (str "E:") l0 || startsWith (str "Q:") l0) = true →
    collectAnswer acc (conts ++ l0 :: rest) = acc ++ joinSp conts
  | [], l0, rest, acc, _, hl0 => by
    simp only [List.nil_append, collectAnswer, hl0, if_true, joinSp, List.append_nil]
  | c :: cs, l0, rest, acc, hconts, hl0 => by
    have hw := wfPlain_spec (hconts c (by simp))
    have hwt := wfText_spec hw.1
    have hQ : startsWith (str "Q:") c = false := startsWithQColon_of_hasMarker hwt.2.2.1
    have htr : jsTrim c = c := jsTrim_of_trimmed hwt.2.1
    rw [List.cons_append]
    show collectAnswer acc (c :: (cs ++ l0 :: rest)) = _
    simp only [collectAnswer, hw.2.2, hQ, hw.2.1, Bool.or_self, if_false, htr]
    rw [collectAnswer_run cs l0 rest (acc ++ ' ' :: c)
      (fun c' hc' => hconts c' (by simp [hc'])) hl0]
    simp [joinSp]

theorem collectExpl_run : ∀ (conts : List Str) (acc : Str),
    (∀ c ∈ conts, wfPlain c = true) →
    collectExpl acc conts = acc ++ joinSp conts
  | [], acc, _ => by simp [collectExpl, joinSp]
  | c :: cs, acc, hconts => by
    have hw := wfPlain_spec (hconts c (by simp))
    have hwt := wfText_spec hw.1
    have hQ : startsWith (str "Q:") c = false := startsWithQColon_of_hasMarker hwt.2.2.1
    have htr : jsTrim c = c := jsTrim_of_trimmed hwt.2.1
    simp only [collectExpl, hw.2.1, hQ, hw.2.2, Bool.or_self, if_false, htr]
    rw [collectExpl_run cs (acc ++ ' ' :: c) (fun c' hc' => hconts c' (by simp [hc']))]
    simp [joinSp]

theorem parseLines_skip : ∀ (ls rest : List Str) (q a e : Str),
    (∀ l ∈ ls, startsWith (str "A:") l = false ∧ startsWith (str "E:") l = false) →
    q.isEmpty = false →
    parseLines (ls ++ rest) (q, a, e) = parseLines rest (q, a, e)
  | [], rest, q, a, e, _, _ => rfl
  | l :: ls, rest, q, a, e, h, hq => by
    obtain ⟨h1, h2⟩ := h l (by simp)
    rw [List.cons_append]
    show parseLines (l :: (ls ++ rest)) (q, a, e) = _
    simp only [parseLines, h1, h2, hq, Bool.false_eq_true, if_false]
    exact parseLines_skip ls rest q a e (fun l' hl' => h l' (by simp [hl'])) hq

theorem parseLines_block (b : QuizBlock) (h : b.wf = true) :
    parseLines
      (b.q :: (str "A: " ++ b.a) :: (b.aConts ++ (str "E: " ++ b.e) :: b.eConts))
      ([], [], []) =
      (b.q, b.a ++ joinSp b.aConts, b.e ++ joinSp b.eConts) := by
  obtain ⟨_, hq, ha, hac, he, hec⟩ := QuizBlock.wf_spec h
  obtain ⟨hqt, hqA, hqE⟩ := wfPlain_spec hq
  have hqne := (wfText_spec hqt).1
  have hatr := jsTrim_of_trimmed (wfText_spec ha).2.1
  have hetr := jsTrim_of_trimmed (wfText_spec he).2.1
  -- first line: the question
  simp only [parseLines, hqA, hqE, Bool.false_eq_true, if_false, List.isEmpty_nil, if_true]
  -- second line: the `A:` line
  simp only [startsWithA_aLine, if_true]
  have hdropA : (str "A: " ++ b.a).drop 2 = ' ' :: b.a := by
    rw [strALine]
    rfl
  rw [hdropA, jsTrim_cons_ws (by decide), hatr]
  rw [collectAnswer_run b.aConts _ b.eConts b.a hac
    (by rw [startsWithE_eLine]; rfl)]
  -- skip the answer continuation lines
  rw [parseLines_skip b.aConts _ _ _ _
    (fun l hl => ⟨(wfPlain_spec (hac l hl)).2.1, (wfPlain_spec (hac l hl)).2.2⟩)
    (ne_nil_isEmpty hqne)]
  -- the `E:` line
  simp only [parseLines, startsWithA_eLine, Bool.false_eq_true, if_false,
    startsWithE_eLine, if_true]
  have hdropE : (str "E: " ++ b.e).drop 2 = ' ' :: b.e := by
    rw [strELine]
    rfl
  rw [hdropE, jsTrim_cons_ws (by decide), hetr]
  rw [collectExpl_run b.eConts b.e hec]
  -- skip the explanation continuation lines
  have := parseLines_skip b.eConts [] b.q (b.a ++ joinSp b.aConts)
    (b.e ++ joinSp b.eConts)
    (fun l hl => ⟨(wfPlain_spec (hec l hl)).2.1, (wfPlain_spec (hec l hl)).2.2⟩)
    (ne_nil_isEmpty hqne)
  rw [List.append_nil] at this
  rw [this]
  rfl

theorem parseQuizPart_body (b : QuizBlock) (h : b.wf = true) :
    parseQuizPart b.body = some b.expected := by
  have hqne := (wfText_spec (wfPlain_spec (QuizBlock.wf_spec h).2.1).1).1
  have hane := (wfText_spec (QuizBlock.wf_spec h).2.2.1).1
  have hansne : b.a ++ joinSp b.aConts ≠ [] := by
    intro hh
    exact hane (List.append_eq_nil.mp hh).1
  unfold parseQuizPart
  rw [linesOf_body b h, parseLines_block b h]
  simp [ne_nil_isEmpty hqne, ne_nil_isEmpty hansne, QuizBlock.expected]

theorem parseQuizParts_map : ∀ (bs : List QuizBlock), (∀ b ∈ bs, b.wf = true) →
    (((bs.map QuizBlock.body).filter
        (fun p => !(jsTrim p).isEmpty)).filterMap parseQuizPart) =
      bs.map QuizBlock.expected
  | [], _ => rfl
  | b :: bs, h => by
    have hwb := h b (by simp)
    simp only [List.map_cons]
    rw [List.filter_cons_of_pos (by simp [jsTrim_body_isEmpty hwb])]
    simp only [List.filterMap_cons, parseQuizPart_body b hwb]
    rw [parseQuizParts_map bs (fun b' hb' => h b' (by simp [hb']))]

/-! ### Helper lemmas for the remaining claims -/

theorem isPrefixOf_append_self : ∀ (x y : Str), x.isPrefixOf (x ++ y) = true
  | [], _ => by simp [List.isPrefixOf]
  | c :: t, y => by simp [List.isPrefixOf, isPrefixOf_append_self t y]

theorem parseLines_answer_skip : ∀ (ls : List Str) (st : Str × Str × Str),
    (∀ l ∈ ls, startsWith (str "A:") l = false) →
    (parseLines ls st).2.1 = st.2.1
  | [], _, _ => rfl
  | l :: ls, (q, a, e), h => by
    have h1 := h l (by simp)
    simp only [parseLines, h1, Bool.false_eq_true, if_false]
    cases hE : startsWith (str "E:") l with
    | false =>
      simp only [Bool.false_eq_true, if_false]
      cases hq : q.isEmpty with
      | false =>
        simp only [Bool.false_eq_true, if_false]
        exact parseLines_answer_skip ls (q, a, e) (fun l' hl' => h l' (by simp [hl']))
      | true =>
        simp only [if_true]
        exact parseLines_answer_skip ls (l, a, e) (fun l' hl' => h l' (by simp [hl']))
    | true =>
      simp only [if_true]
      exact parseLines_answer_skip ls (q, a, collectExpl (jsTrim (l.drop 2)) ls)
        (fun l' hl' => h l' (by simp [hl']))

set_option maxRecDepth 40000 in
/-- The prompt template assembled from its pieces is exactly the template
literal of `handleGenerate` (checked on concrete inputs). -/
theorem buildQuizPrompt_eval :
    buildQuizPrompt 5 (str "medium") (str "cats") =
      str "Generate exactly 5 medium level quiz questions about \"cats\". \n\nFor each question, provide:\n1. The question\n2. A clear, concise answer\n3. A brief explanation (1-2 sentences)\n\nFormat each question like this:\nQ: [question here]\nA: [answer here]\nE: [explanation here]\n\nKeep questions educational and test understanding of key concepts." := by
  decide

/-! ### The claims -/

/-- C1: for every completion consisting of blocks in the prescribed quiz
format (a `Q:` or `Q<digits>:` marker, a single question line, an `A:` line
with optional continuation lines, an `E:` line with optional continuation
lines — `QuizBlock.wf` spells out that the lines are non-blank, trimmed and do
not collide with the `A:`/`E:`/`Q\d*:` markers), `parseQuizResponse` returns
exactly one `QuizQuestion` per block, in block order, whose question is the
trimmed question line, whose answer is the trimmed `A:` text with its
continuation lines appended separated by single spaces, and whose explanation
is the trimmed `E:` text with its continuation lines appended separated by
single spaces. -/
theorem claim1_parse_wellformed_blocks (bs : List QuizBlock)
    (h : ∀ b ∈ bs, b.wf = true) :
    parseQuizResponse (renderBlocks bs) = bs.map QuizBlock.expected := by
  unfold parseQuizResponse
  rw [splitQ_renderBlocks bs h []]
  simp only [List.reverse_nil]
  rw [List.filter_cons_of_neg (by decide)]
  exact parseQuizParts_map bs h

set_option maxRecDepth 40000 in
/-- Witness for C1: a concrete two-block completion. -/
theorem claim1_witness :
    (∀ b ∈ exBlocks, b.wf = true) ∧
      parseQuizResponse (renderBlocks exBlocks) = exBlocks.map QuizBlock.expected :=
  ⟨by decide, claim1_parse_wellformed_blocks exBlocks (by decide)⟩

/-- C2 as stated is false: on the input `"Q:\nA: hello\nworld"` the single
block has no question line, yet `parseQuizResponse` produces an item — the
answer continuation line `world` is re-scanned by the outer loop and becomes
the question. -/
theorem claim2_counterexample :
    parseQuizResponse (str "Q:\nA: hello\nworld") =
        [⟨str "world", str "hello world", str ""⟩] ∧
      parseQuizResponse (str "Q:\nA: hello\nworld") ≠ [] := by
  constructor
  · decide
  · decide

/-- C2 (amended): for every input string, `parseQuizResponse` returns a
(necessarily finite) list in which every item has a non-empty question and a
non-empty answer, and any block lacking an `A:` line contributes no item.  (A
block lacking a question line but having an `A:` line with a continuation
line can still contribute an item, its question taken from that continuation
line.) -/
theorem claim2_amended :
    (∀ (s : Str) (qq : QuizQuestion), qq ∈ parseQuizResponse s →
        qq.question ≠ [] ∧ qq.answer ≠ []) ∧
      (∀ part : Str, (∀ l ∈ linesOf part, startsWith (str "A:") l = false) →
        parseQuizPart part = none) := by
  constructor
  · intro s qq hm
    unfold parseQuizResponse at hm
    obtain ⟨part, _, hp⟩ := List.mem_filterMap.mp hm
    simp only [parseQuizPart] at hp
    split at hp
    · rename_i hcond
      rw [Bool.and_eq_true] at hcond
      obtain ⟨hc1, hc2⟩ := hcond
      cases hp
      constructor
      · show (parseLines (linesOf part) ([], [], [])).1 ≠ []
        intro hh
        rw [hh] at hc1
        simp at hc1
      · show (parseLines (linesOf part) ([], [], [])).2.1 ≠ []
        intro hh
        rw [hh] at hc2
        simp at hc2
    · cases hp
  · intro part h
    have ha := parseLines_answer_skip (linesOf part) ([], [], []) h
    simp only [parseQuizPart]
    rw [ha]
    simp

/-- Witness for C2 (amended): a concrete well-formed response. -/
theorem claim2_witness :
    ((⟨str "a", str "b", str ""⟩ : QuizQuestion) ∈ parseQuizResponse (str "Q: a\nA: b")) ∧
      (str "a" ≠ ([] : Str) ∧ str "b" ≠ ([] : Str)) :=
  ⟨by decide, claim2_amended.1 (str "Q: a\nA: b") ⟨str "a", str "b", str ""⟩ (by decide)⟩

/-- C4: when an awaited external-SDK operation rejects, each component only
stores the display message (`err.message` for an `Error`, a fallback string
otherwise) and resets its busy/pipeline state: App records the message with
`sdkReady` still false; the quiz tab ends with no questions, the message, and
`isGenerating` false; the voice tab sets the message and pipeline state
`idle` and touches nothing else.  No rethrow, retry or other recovery exists
in the models, which are total functions returning exactly these states. -/
theorem claim4_catch_only_stores_and_resets :
    (∀ e : JSError, appInit (.error e) = ⟨false, some (appErrorDisplay e)⟩) ∧
      (∀ (topic difficulty : Str) (n : Nat) (e : JSError),
        quizGenerate topic difficulty n (.error e) =
          ⟨buildQuizPrompt n difficulty topic, [], some (quizErrorDisplay e), false⟩) ∧
      (∀ (s : VState) (e : JSError),
        voiceStep s (.turnError e) =
          { s with pipelineState := .idle, error := some (voiceErrorDisplay e) }) ∧
      (∀ m : Str, appErrorDisplay (.error m) = m ∧ quizErrorDisplay (.error m) = m ∧
        voiceErrorDisplay (.error m) = m) :=
  ⟨fun _ => rfl, fun _ _ _ _ => rfl, fun _ _ => rfl, fun _ => ⟨rfl, rfl, rfl⟩⟩

/-- C5: for every topic, difficulty and question count, the prompt the quiz
tab passes to `TextGeneration.generateStream` is `buildQuizPrompt` of exactly
those three inputs (independent of the model response), begins with
`Generate exactly <n> <difficulty> level quiz questions about "<topic>".`,
and contains the `Q:`/`A:`/`E:` output-format instructions. -/
theorem claim5_prompt_deterministic :
    ∀ (topic difficulty : Str) (n : Nat) (r : Except JSError Str),
      (quizGenerate topic difficulty n r).promptSent = buildQuizPrompt n difficulty topic ∧
      startsWith
        (str "Generate exactly " ++ natToStr n ++ str " " ++ difficulty ++
          str " level quiz questions about \"" ++ topic ++ str "\".")
        (buildQuizPrompt n difficulty topic) = true ∧
      (∃ u v : Str, buildQuizPrompt n difficulty topic = u ++ quizFormatBlock ++ v) := by
  intro topic difficulty n r
  refine ⟨?_, ?_, ?_⟩
  · cases r with
    | error e => rfl
    | ok resp =>
      simp only [quizGenerate]
      split <;> rfl
  · have hsplit : buildQuizPrompt n difficulty topic =
        (str "Generate exactly " ++ natToStr n ++ str " " ++ difficulty ++
          str " level quiz questions about \"" ++ topic ++ str "\".") ++
        (quizPromptMid ++ quizFormatBlock ++ quizPromptEnd) := by
      simp [buildQuizPrompt, List.append_assoc]
    rw [hsplit]
    exact isPrefixOf_append_self _ _
  · refine ⟨str "Generate exactly " ++ natToStr n ++ str " " ++ difficulty ++
      str " level quiz questions about \"" ++ topic ++ str "\"." ++ quizPromptMid,
      quizPromptEnd, ?_⟩
    simp [buildQuizPrompt, List.append_assoc]

/-- C7: whenever the text-to-audio tab's guard passes and synthesis succeeds,
`TTS.synthesize` is called once with the entered text unchanged and speed 1,
and the displayed stats are `duration = audioData.length / sampleRate` and
the result's sample rate. -/
theorem claim7_tts_synthesis :
    ∀ (text : Str) (r : TTSResult), (jsTrim text).isEmpty = false →
      ttsHandleGenerate text (.ok r) =
        ⟨some (text, 1),
          some ((r.audioData.length : ℚ) / r.sampleRate, r.sampleRate), none⟩ := by
  intro text r h
  simp [ttsHandleGenerate, h]

/-- Witness for C7. -/
theorem claim7_witness :
    (jsTrim (str "hi")).isEmpty = false ∧
      ttsHandleGenerate (str "hi") (.ok ⟨[0, 0], 2⟩) =
        ⟨some (str "hi", 1),
          some ((((⟨[0, 0], 2⟩ : TTSResult).audioData.length : ℚ) /
              (⟨[0, 0], 2⟩ : TTSResult).sampleRate,
            (⟨[0, 0], 2⟩ : TTSResult).sampleRate)), none⟩ :=
  ⟨by decide, claim7_tts_synthesis (str "hi") ⟨[0, 0], 2⟩ (by decide)⟩

/-- C10: when the stream succeeds but zero items parse, `handleGenerate` sets
the message `Failed to parse quiz questions. Please try again.` and leaves the
questions list empty; the questions state receives the parsed output exactly
when at least one item parsed. -/
theorem claim10_parse_failure_handling :
    ∀ (topic difficulty : Str) (n : Nat) (r : Str),
      (parseQuizResponse r = [] →
        (quizGenerate topic difficulty n (.ok r)).errorMsg =
            some (str "Failed to parse quiz questions. Please try again.") ∧
          (quizGenerate topic difficulty n (.ok r)).questions = []) ∧
      (parseQuizResponse r ≠ [] →
        (quizGenerate topic difficulty n (.ok r)).questions = parseQuizResponse r ∧
          (quizGenerate topic difficulty n (.ok r)).errorMsg = none) := by
  intro topic difficulty n r
  constructor
  · intro h
    simp [quizGenerate, h]
  · intro h
    have h2 : (parseQuizResponse r).isEmpty = false := ne_nil_isEmpty h
    simp [quizGenerate, h2]

/-- Witness for C10: a garbage response parses to nothing and sets the
message; a well-formed response replaces the questions. -/
theorem claim10_witness :
    (parseQuizResponse (str "oops") = [] ∧
      (quizGenerate (str "t") (str "easy") 3 (.ok (str "oops"))).errorMsg =
        some (str "Failed to parse quiz questions. Please try again.") ∧
      (quizGenerate (str "t") (str "easy") 3 (.ok (str "oops"))).questions = []) ∧
    (quizGenerate (str "t") (str "easy") 3 (.ok (str "Q: a\nA: b"))).questions =
      parseQuizResponse (str "Q: a\nA: b") :=
  ⟨⟨by decide,
    ((claim10_parse_failure_handling (str "t") (str "easy") 3 (str "oops")).1 (by decide)).1,
    ((claim10_parse_failure_handling (str "t") (str "easy") 3 (str "oops")).1 (by decide)).2⟩,
    ((claim10_parse_failure_handling (str "t") (str "easy") 3 (str "Q: a\nA: b")).2
      (by decide)).1⟩

/-! ### The voice tab claims -/

theorem isPairs_append : ∀ (h k : List ChatMsg), isPairs h = true →
    isPairs k = true → isPairs (h ++ k) = true
  | [], _, _, hk => hk
  | [_], _, hh, _ => by simp [isPairs] at hh
  | u :: a :: rest, k, hh, hk => by
    simp only [isPairs, Bool.and_eq_true, decide_eq_true_eq] at hh
    obtain ⟨⟨h1, h2⟩, h3⟩ := hh
    simp only [List.cons_append, isPairs, Bool.and_eq_true, decide_eq_true_eq]
    exact ⟨⟨h1, h2⟩, isPairs_append rest k h3 hk⟩

set_option maxRecDepth 100000 in
/-- C3 is false as stated: the VAD subscription and the microphone stay
active while a turn is processed, so a second end-of-speech (the user speaking
again) in state `thinking` moves the pipeline backwards to `transcribing` —
a transition that is neither a chain step nor a reset to idle. -/
theorem claim3_counterexample :
    (voiceRun vInit
        [.startOk, .vadEnded (some (segN 1601)),
          .onTranscription (str "hi")]).pipelineState = .thinking ∧
      (voiceRun vInit
        [.startOk, .vadEnded (some (segN 1601)), .onTranscription (str "hi"),
          .vadEnded (some (segN 1601))]).pipelineState = .transcribing ∧
      chainAllowed .thinking .transcribing = false := by
  refine ⟨by decide, by decide, by decide⟩

/-- C3 (amended): provided events arrive in the turn-taking order (`orderly`:
VAD end-of-speech only while listening, no stop and no start while a turn is
in flight, each `processTurn` callback from the state the previous step
established), `pipelineState` only stays put, advances one step along
idle → listening → transcribing → thinking → speaking → idle, or resets to
idle on stopListening, a failed startListening, or a caught turn error. -/
theorem claim3_amended :
    ∀ (s : VState) (e : VEvent), orderly s e = true →
      (voiceStep s e).pipelineState = s.pipelineState ∨
      chainStep s.pipelineState (voiceStep s e).pipelineState = true ∨
      ((voiceStep s e).pipelineState = .idle ∧ isResetEvent e = true) := by
  intro s e h
  cases e with
  | startOk =>
    have hs : s.pipelineState = .idle := of_decide_eq_true h
    right
    left
    simp [voiceStep, hs, chainStep]
  | startFail err sub =>
    have hs : s.pipelineState = .idle := of_decide_eq_true h
    left
    simp [voiceStep, if_pos hs, hs]
  | stopListening =>
    exact Or.inr (Or.inr ⟨rfl, rfl⟩)
  | vadEnded seg =>
    have hs : s.pipelineState = .listening := of_decide_eq_true h
    cases seg with
    | none => exact Or.inl rfl
    | some seg =>
      by_cases hcond : s.vadSubscribed = true ∧ 1600 < seg.samples.length
      · right
        left
        simp [voiceStep, if_pos hcond, hs, chainStep]
      · left
        simp [voiceStep, if_neg hcond]
  | vadOther => exact Or.inl rfl
  | onTranscription t =>
    have hs : s.pipelineState = .transcribing := of_decide_eq_true h
    right
    left
    simp [voiceStep, hs, chainStep]
  | onResponseToken acc => exact Or.inl rfl
  | onResponseComplete tr t =>
    have hs : s.pipelineState = .thinking := of_decide_eq_true h
    right
    left
    simp [voiceStep, hs, chainStep]
  | onSynthesisComplete =>
    have hs : s.pipelineState = .speaking := of_decide_eq_true h
    right
    left
    simp [voiceStep, hs, chainStep]
  | turnError err =>
    exact Or.inr (Or.inr ⟨rfl, rfl⟩)
  | clearHistory => exact Or.inl rfl

/-- Witness for C3 (amended). -/
theorem claim3_witness :
    orderly vInit .startOk = true ∧
      ((voiceStep vInit .startOk).pipelineState = vInit.pipelineState ∨
        chainStep vInit.pipelineState (voiceStep vInit .startOk).pipelineState = true ∨
        ((voiceStep vInit .startOk).pipelineState = .idle ∧
          isResetEvent .startOk = true)) :=
  ⟨by decide, claim3_amended vInit .startOk (by decide)⟩

/-- C6: each qualifying detected segment is delegated to exactly one
`VoicePipeline.processTurn` call carrying the segment's samples unchanged and
the fixed options (`maxTokens` 150, `temperature` 0.7, the study-assistant
system prompt); no other event produces a call, and the component model
contains no transcription, generation or synthesis of its own. -/
theorem claim6_delegation :
    (∀ (s : VState) (seg : VSegment), s.vadSubscribed = true →
        1600 < seg.samples.length →
        (voiceStep s (.vadEnded (some seg))).turnCalls =
          s.turnCalls ++ [⟨seg.samples, 150, 7 / 10, voiceQASystemPrompt⟩]) ∧
      (∀ (s : VState) (e : VEvent), (∀ seg, e ≠ .vadEnded (some seg)) →
        (voiceStep s e).turnCalls = s.turnCalls) := by
  constructor
  · intro s seg hsub hlen
    simp [voiceStep, hsub, hlen, mkTurnCall]
  · intro s e hno
    cases e with
    | startOk =>
      simp only [voiceStep]
      split <;> rfl
    | startFail err sub =>
      simp only [voiceStep]
      split <;> rfl
    | stopListening => rfl
    | vadEnded seg =>
      cases seg with
      | none => rfl
      | some seg => exact absurd rfl (hno seg)
    | vadOther => rfl
    | onTranscription t => rfl
    | onResponseToken acc => rfl
    | onResponseComplete tr t => rfl
    | onSynthesisComplete => rfl
    | turnError err => rfl
    | clearHistory => rfl

set_option maxRecDepth 100000 in
/-- Witness for C6. -/
theorem claim6_witness :
    ({ vInit with vadSubscribed := true } : VState).vadSubscribed = true ∧
      1600 < (segN 1601).samples.length ∧
      (voiceStep { vInit with vadSubscribed := true }
          (.vadEnded (some (segN 1601)))).turnCalls =
        ({ vInit with vadSubscribed := true } : VState).turnCalls ++
          [⟨(segN 1601).samples, 150, 7 / 10, voiceQASystemPrompt⟩] :=
  ⟨rfl, by norm_num [segN],
    claim6_delegation.1 { vInit with vadSubscribed := true } (segN 1601) rfl
      (by norm_num [segN])⟩

/-- C8: a voice turn starts only on a VAD `Ended` report whose popped segment
has strictly more than 1600 samples (0.1 s at 16 kHz): an absent segment or
one of at most 1600 samples leaves the whole component state — in particular
a `listening` pipeline state — unchanged, while a qualifying segment (with
the subscription active) moves the pipeline to `transcribing` and starts
exactly one turn. -/
theorem claim8_vad_gate :
    ∀ (s : VState) (segOpt : Option VSegment),
      (voiceStep s (.vadEnded none) = s) ∧
      (∀ seg, segOpt = some seg → seg.samples.length ≤ 1600 →
        voiceStep s (.vadEnded segOpt) = s) ∧
      (∀ seg, segOpt = some seg → 1600 < seg.samples.length →
        s.vadSubscribed = true →
        (voiceStep s (.vadEnded segOpt)).pipelineState = .transcribing ∧
        (voiceStep s (.vadEnded segOpt)).turnCalls =
          s.turnCalls ++ [mkTurnCall seg]) := by
  intro s segOpt
  refine ⟨rfl, ?_, ?_⟩
  · intro seg hseg hlen
    subst hseg
    simp only [voiceStep]
    rw [if_neg]
    rintro ⟨-, h2⟩
    omega
  · intro seg hseg hlen hsub
    subst hseg
    constructor <;> simp [voiceStep, hsub, hlen, mkTurnCall]

/-- Witness for C8: a 5-sample segment is ignored. -/
theorem claim8_witness :
    (segN 5).samples.length ≤ 1600 ∧
      voiceStep { vInit with pipelineState := .listening, vadSubscribed := true }
          (.vadEnded (some (segN 5))) =
        { vInit with pipelineState := .listening, vadSubscribed := true } :=
  ⟨by norm_num [segN],
    (claim8_vad_gate { vInit with pipelineState := .listening, vadSubscribed := true }
      (some (segN 5))).2.1 (segN 5) rfl (by norm_num [segN])⟩

/-- C9: `conversationHistory` is always an even-length strictly alternating
list of user/assistant pairs: each completed turn appends exactly one pair in
a single update, `clearHistory` resets it to the empty list, and no other
event modifies it. -/
theorem claim9_history_invariant :
    (∀ (s : VState) (e : VEvent), isPairs s.history = true →
        isPairs (voiceStep s e).history = true) ∧
      (∀ s : VState, (voiceStep s .clearHistory).history = []) ∧
      (∀ (s : VState) (tr : Option Str) (t : Str),
        (voiceStep s (.onResponseComplete tr t)).history =
          s.history ++ [⟨.user, jsOrElse tr s.transcript⟩, ⟨.assistant, t⟩]) ∧
      (∀ (s : VState) (e : VEvent),
        (∀ tr t, e ≠ .onResponseComplete tr t) → e ≠ .clearHistory →
        (voiceStep s e).history = s.history) := by
  refine ⟨?_, fun _ => rfl, fun _ _ _ => rfl, ?_⟩
  · intro s e hp
    cases e with
    | startOk =>
      simp only [voiceStep]
      split <;> exact hp
    | startFail err sub =>
      simp only [voiceStep]
      split <;> exact hp
    | stopListening => exact hp
    | vadEnded seg =>
      cases seg with
      | none => exact hp
      | some seg =>
        simp only [voiceStep]
        split <;> exact hp
    | vadOther => exact hp
    | onTranscription t => exact hp
    | onResponseToken acc => exact hp
    | onResponseComplete tr t =>
      exact isPairs_append s.history
        [⟨.user, jsOrElse tr s.transcript⟩, ⟨.assistant, t⟩] hp (by simp [isPairs])
    | onSynthesisComplete => exact hp
    | turnError err => exact hp
    | clearHistory => rfl
  · intro s e h1 h2
    cases e with
    | startOk =>
      simp only [voiceStep]
      split <;> rfl
    | startFail err sub =>
      simp only [voiceStep]
      split <;> rfl
    | stopListening => rfl
    | vadEnded seg =>
      cases seg with
      | none => rfl
      | some seg =>
        simp only [voiceStep]
        split <;> rfl
    | vadOther => rfl
    | onTranscription t => rfl
    | onResponseToken acc => rfl
    | onResponseComplete tr t => exact absurd rfl (h1 tr t)
    | onSynthesisComplete => rfl
    | turnError err => rfl
    | clearHistory => exact absurd rfl h2

/-- Witness for C9. -/
theorem claim9_witness :
    isPairs (voiceStep vInit (.onResponseComplete none (str "ok"))).history = true :=
  claim9_history_invariant.1 vInit (.onResponseComplete none (str "ok")) (by decide)

end StudyBuddy
